import Mathlib

/-!
Verification model of `createEchoPracticeMp3` (`src/main.py`).

The script is a thin wrapper around pydub: `calculate_silence_threshold`
returns `audio.dBFS + offset_db`, `split_audio_on_silence` forwards to
`pydub.silence.split_on_silence`, `process_chunk` is
`chunk.normalize() + AudioSegment.silent(len(chunk) * multiplier)`, and
`concatenate_chunks` folds `+` over the chunks starting from
`AudioSegment.empty()`.  The claims are therefore decided by the pydub
semantics of those calls, which this file embeds: buffers are frame lists
with a rate / channel count / sample width, millisecond lengths round half
to even as Python's `round` does, slicing converts milliseconds to frame
indices with `int(ms * rate / 1000)`, and `detect_silence` classifies every
window of `min_silence_len` milliseconds by its integer RMS.
-/

namespace EchoMp3

/-- Model of a pydub `AudioSegment`: frame rate in Hz, channel count, sample
width in bytes, and the decoded frames (one list of integer sample values per
frame, one value per channel). -/
structure AudioSeg where
  rate : ℕ
  channels : ℕ
  width : ℕ
  frames : List (List ℤ)
deriving DecidableEq, Repr

/-- Python's `round(q / d)` for naturals `q`, `d` — round half to even, the
rounding `AudioSegment.__len__` applies; 0 when `d = 0` (pydub's
`duration_seconds` short-circuits a zero frame rate to 0). -/
def natRoundHalfEven (q d : ℕ) : ℕ :=
  if d = 0 then 0
  else
    let fl := q / d
    if 2 * (q % d) < d then fl
    else if d < 2 * (q % d) then fl + 1
    else if fl % 2 = 0 then fl else fl + 1

/-- `len(segment)`: duration in milliseconds,
`round(1000 * frames / rate)` with Python's half-to-even `round`. -/
def lenMs (a : AudioSeg) : ℕ :=
  natRoundHalfEven (1000 * a.frames.length) a.rate

/-- All samples of a segment, flattened across frames and channels (the order
`audioop` reads the raw data in). -/
def samplesOf (a : AudioSeg) : List ℤ := a.frames.flatten

/-- Newton iteration for the integer square root, with explicit fuel so that
the kernel can evaluate it; `isqrt_eq_sqrt` below proves it equal to
`Nat.sqrt` (which uses well-founded recursion). -/
def isqrtIter (n : ℕ) : ℕ → ℕ → ℕ
  | 0, guess => guess
  | fuel + 1, guess =>
    let next := (guess + n / guess) / 2
    if next < guess then isqrtIter n fuel next else guess

/-- Integer square root (equal to `Nat.sqrt`, see `isqrt_eq_sqrt`). -/
def isqrt (n : ℕ) : ℕ :=
  if n ≤ 1 then n else isqrtIter n n (n / 2)

/-- `audioop.rms`: the integer part of `sqrt(sum_of_squares / length)`; 0
for an empty buffer (`audioop.c` returns 0 when the length is 0, and `ℕ`
division by zero is 0 here). -/
def rmsOf (a : AudioSeg) : ℕ :=
  isqrt ((((samplesOf a).map (fun z => (z * z).toNat)).sum) / (samplesOf a).length)

/-- `segment[i:j]` (millisecond slice, `AudioSegment.__getitem__`): both
bounds are clamped to `len(segment)` and converted to frame indices by
`int(ms * rate / 1000)` (`_parse_position` / `frame_count`). -/
def sliceMs (a : AudioSeg) (i j : ℕ) : AudioSeg :=
  let L := lenMs a
  let sf := min i L * a.rate / 1000
  let ef := min j L * a.rate / 1000
  { a with frames := (a.frames.take ef).drop sf }

/-- RMS of the millisecond window `[i, j)`, as `detect_silence` computes it. -/
def sliceRms (a : AudioSeg) (i j : ℕ) : ℕ := rmsOf (sliceMs a i j)

/-- The run-collapsing loop of `pydub.silence.detect_silence` with
`seek_step = 1`: `cur` is `current_range_start`, `prev` is `prev_i`; a silent
range `[cur, prev + minLen]` is flushed when the next silent window start is
neither contiguous with the previous one nor within `minLen` of it. -/
def combineGo (minLen cur prev : ℕ) : List ℕ → List (ℕ × ℕ)
  | [] => [(cur, prev + minLen)]
  | i :: rest =>
    if i ≠ prev + 1 ∧ prev + minLen < i then
      (cur, prev + minLen) :: combineGo minLen i i rest
    else
      combineGo minLen cur i rest

/-- `pydub.silence.detect_silence` with `seek_step = 1`.  pydub converts the
dB threshold to an amplitude (`db_to_float(silence_thresh) *
max_possible_amplitude`) before comparing it with window RMS values; this
model takes that already-converted amplitude threshold `thresh` directly (the
dB-to-amplitude map is a strictly monotone bijection onto the positive
amplitudes, so quantifying over `thresh` covers every dB threshold). -/
def detect_silence {α : Type} [LinearOrderedField α] (a : AudioSeg) (minLen : ℕ)
    (thresh : α) : List (ℕ × ℕ) :=
  let L := lenMs a
  if L < minLen then []
  else
    match (List.range (L - minLen + 1)).filter
        (fun i => decide ((sliceRms a i (i + minLen) : α) ≤ thresh)) with
    | [] => []
    | s0 :: rest => combineGo minLen s0 s0 rest

/-- The nonsilent-range construction loop in `detect_nonsilent`
(`prev` is `prev_end_i`). -/
def nsGo (L : ℕ) : ℕ → List (ℕ × ℕ) → List (ℕ × ℕ)
  | prev, [] => [(prev, L)]
  | prev, (s, _e) :: rest => (prev, s) :: nsGo L _e rest

/-- `pydub.silence.detect_nonsilent` with `seek_step = 1`: complement of the
silent ranges, with the leading `[0, 0]` artifact popped.  (There is no
matching pop of a trailing `[len, len]` range in pydub.) -/
def detect_nonsilent {α : Type} [LinearOrderedField α] (a : AudioSeg) (minLen : ℕ)
    (thresh : α) : List (ℕ × ℕ) :=
  let L := lenMs a
  match detect_silence a minLen thresh with
  | [] => [(0, L)]
  | (s0, e0) :: srs =>
    if s0 = 0 ∧ e0 = L then []
    else
      match nsGo L 0 ((s0, e0) :: srs) with
      | (0, 0) :: rest => rest
      | ns => ns

/-- The in-place pairwise overlap fix in `split_on_silence`: when the next
expanded range starts before the current one ends, both boundaries are moved
to the floor midpoint `(last_end + next_start) // 2`. -/
def fixGo : (ℤ × ℤ) → List (ℤ × ℤ) → List (ℤ × ℤ)
  | cur, [] => [cur]
  | cur, (s2, e2) :: rest =>
    if s2 < cur.2 then
      (cur.1, (cur.2 + s2).fdiv 2) :: fixGo ((cur.2 + s2).fdiv 2, e2) rest
    else
      cur :: fixGo (s2, e2) rest

/-- The whole pairwise loop of `split_on_silence`. -/
def fixOverlapsPy : List (ℤ × ℤ) → List (ℤ × ℤ)
  | [] => []
  | r :: rest => fixGo r rest

/-- The millisecond boundaries `[max(start, 0), min(end, len))` of the chunks
returned by `split_on_silence`: nonsilent ranges expanded by `keep` on each
side, overlaps resolved at the midpoint, then clamped to the buffer. -/
def splitRanges {α : Type} [LinearOrderedField α] (a : AudioSeg) (minLen : ℕ)
    (thresh : α) (keep : ℕ) : List (ℤ × ℤ) :=
  let L := lenMs a
  (fixOverlapsPy ((detect_nonsilent a minLen thresh).map
      (fun p => ((p.1 : ℤ) - keep, (p.2 : ℤ) + keep)))).map
    (fun p => (max p.1 0, min p.2 (L : ℤ)))

/-- `pydub.silence.split_on_silence` (`seek_step = 1`, integer
`keep_silence`): the audio sliced at `splitRanges`. -/
def split_on_silence {α : Type} [LinearOrderedField α] (a : AudioSeg) (minLen : ℕ)
    (thresh : α) (keep : ℕ) : List AudioSeg :=
  (splitRanges a minLen thresh keep).map (fun p => sliceMs a p.1.toNat p.2.toNat)

/-- `split_audio_on_silence` from `src/main.py` forwards its arguments to
`pydub.silence.split_on_silence` unchanged. -/
def split_audio_on_silence {α : Type} [LinearOrderedField α] (a : AudioSeg) (minLen : ℕ)
    (thresh : α) (keep : ℕ) : List AudioSeg :=
  split_on_silence a minLen thresh keep

/-- The only exception the modelled pydub paths can raise: `ValueError` from
`AudioSegment.set_channels` for an unsupported channel conversion.  (No
`InvalidBufferError` or `IncompatibleFormatError` class exists anywhere in
the program.) -/
inductive PyError where
  | valueError : PyError
deriving DecidableEq, Repr

/-- Clip an integer sample to the representable range of width `w` — `fbound`
from CPython's `audioop.c`; its round-toward-minus-infinity is a no-op on
integer-valued input. -/
def clipZ (w : ℕ) (v : ℤ) : ℤ :=
  let maxv : ℤ := 2 ^ (8 * w - 1) - 1
  let minv : ℤ := -(2 ^ (8 * w - 1))
  if maxv < v then maxv else if v ≤ minv then minv else v

/-- `AudioSegment.set_channels`: identity on a matching count; mono→stereo by
`audioop.tostereo(…, 1, 1)`; stereo→mono by `audioop.tomono(…, 0.5, 0.5)`
(exact halves, floored by `fbound`); many→one by summing floor-divided
channels; mono→n by duplicating the channel; anything else raises
`ValueError`. -/
def set_channels (a : AudioSeg) (n : ℕ) : Except PyError AudioSeg :=
  if n = a.channels then .ok a
  else if n = 2 ∧ a.channels = 1 then
    .ok { a with channels := 2,
                 frames := a.frames.map (fun f => f.map (clipZ a.width) ++ f.map (clipZ a.width)) }
  else if n = 1 ∧ a.channels = 2 then
    .ok { a with channels := 1,
                 frames := a.frames.map (fun f => [clipZ a.width ((f.headI + f.getD 1 0).fdiv 2)]) }
  else if n = 1 then
    .ok { a with channels := 1,
                 frames := a.frames.map (fun f => [(f.map (fun x => x.fdiv (a.channels : ℤ))).sum]) }
  else if a.channels = 1 then
    .ok { a with channels := n, frames := a.frames.map (fun f => (List.replicate n f).flatten) }
  else .error .valueError

/-- Frame data of a rate conversion.  `audioop.ratecv` linearly interpolates;
this model keeps the nearest input frame.  No theorem below depends on the
resampled values or on the exact converted frame count — every theorem about
durations or content is stated where no resampling occurs — but empty data
staying empty (as in `set_frame_rate`) and the format bookkeeping are used. -/
def resampleFrames (fs : List (List ℤ)) (r1 r2 : ℕ) : List (List ℤ) :=
  (List.range ((fs.length * r2 + (r1 - 1)) / r1)).map (fun j => fs.getD (j * r1 / r2) [])

/-- `AudioSegment.set_frame_rate`: identity on a matching rate, otherwise
resample (empty data stays empty). -/
def set_frame_rate (a : AudioSeg) (r : ℕ) : AudioSeg :=
  if r = a.rate then a
  else { a with rate := r, frames := resampleFrames a.frames a.rate r }

/-- `AudioSegment.set_sample_width` via `audioop.lin2lin`: widening scales by
256 per extra byte (exact), narrowing arithmetically shifts right (floor). -/
def set_sample_width (a : AudioSeg) (w : ℕ) : AudioSeg :=
  if w = a.width then a
  else if a.width ≤ w then
    { a with width := w,
             frames := a.frames.map (fun f => f.map (fun x => x * (256 : ℤ) ^ (w - a.width))) }
  else
    { a with width := w,
             frames := a.frames.map (fun f => f.map (fun x => x.fdiv ((256 : ℤ) ^ (a.width - w)))) }

/-- `AudioSegment._sync` of one segment to the joint format: channels, then
frame rate, then sample width. -/
def syncTo (a : AudioSeg) (ch r w : ℕ) : Except PyError AudioSeg := do
  let a1 ← set_channels a ch
  pure (set_sample_width (set_frame_rate a1 r) w)

/-- `seg1 + seg2` = `seg1.append(seg2, crossfade=0)`: `_sync` both segments
to the maximal channel count / frame rate / sample width, then concatenate
the raw data (the result carries the synced metadata). -/
def appendSeg (a b : AudioSeg) : Except PyError AudioSeg := do
  let ch := max a.channels b.channels
  let r := max a.rate b.rate
  let w := max a.width b.width
  let a2 ← syncTo a ch r w
  let b2 ← syncTo b ch r w
  pure { rate := r, channels := ch, width := w, frames := a2.frames ++ b2.frames }

/-- `AudioSegment.empty()`: no data, 1 Hz, mono, 1-byte samples. -/
def emptySeg : AudioSeg := ⟨1, 1, 1, []⟩

/-- `concatenate_chunks` from `src/main.py`: `final_audio =
AudioSegment.empty()` then `final_audio += chunk` over the list — a left fold
of `+`.  There is no format check of any kind in this function. -/
def concatenate_chunks (chunks : List AudioSeg) : Except PyError AudioSeg :=
  chunks.foldlM appendSeg emptySeg

/-- `AudioSegment.silent(duration)` as `process_chunk` calls it — with the
*default* `frame_rate = 11025`, mono, 16-bit.  The duration in milliseconds
is passed as the exact fraction `durNum / durDen`; the frame count is
`int(11025 * duration / 1000)` (floor division here: the claims only use
nonnegative durations, where Python's `int` truncation is the floor). -/
def silentSeg (durNum durDen : ℤ) : AudioSeg :=
  ⟨11025, 1, 2, List.replicate ((11025 * durNum).fdiv (1000 * durDen)).toNat [0]⟩

/-- Peak amplitude `audioop.max`: largest absolute sample value, 0 if empty. -/
def maxAbsSample (a : AudioSeg) : ℕ := ((samplesOf a).map Int.natAbs).foldr max 0

/-- `max_possible_amplitude = 2^(8·width) / 2`, as a real number. -/
noncomputable def maxPossibleAmp (w : ℕ) : ℝ := 2 ^ (8 * w) / 2

/-- `fbound` from `audioop.c` on a real intermediate value: clip to the
sample range, rounding toward minus infinity. -/
noncomputable def fboundR (w : ℕ) (v : ℝ) : ℤ :=
  let maxv : ℤ := 2 ^ (8 * w - 1) - 1
  let minv : ℤ := -(2 ^ (8 * w - 1))
  if (maxv : ℝ) < v then maxv else if v < (minv : ℝ) + 1 then minv else ⌊v⌋

/-- `pydub.effects.normalize` with its default 0.1 dB headroom, as
`chunk.normalize()` calls it: a buffer whose peak is 0 is returned unchanged;
otherwise every sample is multiplied by `target_peak / peak` where
`target_peak = max_possible_amplitude · 10^(-0.1/20)` (the dB round trip
`db_to_float(ratio_to_db(x))` is the identity on positive reals), then
floored and clipped by `audioop.mul`'s `fbound`. -/
noncomputable def normalize (a : AudioSeg) : AudioSeg :=
  let peak := maxAbsSample a
  if peak = 0 then a
  else
    let factor : ℝ := maxPossibleAmp a.width * (10 : ℝ) ^ (-(1 : ℝ) / 200) / peak
    { a with frames := a.frames.map (fun f => f.map (fun x => fboundR a.width ((x : ℝ) * factor))) }

/-- `process_chunk` from `src/main.py`: normalize the chunk, then append
`AudioSegment.silent(duration = len(chunk) * silence_multiplier)` — the
silence duration `lenMs · m` is handed to `silentSeg` as the exact fraction
`(lenMs · m.num) / m.den`. -/
noncomputable def process_chunk (chunk : AudioSeg) (silenceMultiplier : ℚ) :
    Except PyError AudioSeg :=
  let c := normalize chunk
  appendSeg c (silentSeg ((lenMs c : ℤ) * silenceMultiplier.num) (silenceMultiplier.den : ℤ))

/-- The padding buffer `process_chunk` synthesizes (its local
`silence_chunk`). -/
noncomputable def processChunkPad (chunk : AudioSeg) (silenceMultiplier : ℚ) : AudioSeg :=
  silentSeg ((lenMs (normalize chunk) : ℤ) * silenceMultiplier.num) (silenceMultiplier.den : ℤ)

/-- `process_chunks` from `src/main.py`: process every chunk in order. -/
noncomputable def process_chunks (chunks : List AudioSeg) (m : ℚ) :
    Except PyError (List AudioSeg) :=
  chunks.mapM (fun c => process_chunk c m)

/-- A pydub dBFS value: −∞ (zero RMS) or a finite dB figure. -/
inductive Db where
  | negInf : Db
  | fin : ℝ → Db

/-- Float addition with the −∞ floor: `-inf + offset = -inf`. -/
noncomputable def dbAdd : Db → ℚ → Db
  | .negInf, _ => .negInf
  | .fin x, q => .fin (x + q)

/-- `AudioSegment.dBFS`: −∞ when the RMS is 0 (in particular for an empty
buffer, since `audioop.rms` of no data is 0), else
`ratio_to_db(rms / max_possible_amplitude) = 20·log₁₀(rms / max)`. -/
noncomputable def dBFS (a : AudioSeg) : Db :=
  if rmsOf a = 0 then .negInf
  else .fin (20 * Real.logb 10 ((rmsOf a : ℝ) / maxPossibleAmp a.width))

/-- `calculate_silence_threshold` from `src/main.py`: literally
`audio.dBFS + offset_db`.  The Python body contains no `raise` and calls only
total operations (`audioop.rms` returns 0 on empty data), so the model is
`.ok` on every input, including the empty buffer. -/
noncomputable def calculate_silence_threshold (audio : AudioSeg) (offsetDb : ℚ) :
    Except PyError Db :=
  .ok (dbAdd (dBFS audio) offsetDb)

/-- `db_to_float` of a dB value (amplitude-ratio form): −∞ ↦ 0 (Python:
`10 ** (-inf / 20) = 0.0`), x ↦ 10^(x/20). -/
noncomputable def dbToAmpFactor : Db → ℝ
  | .negInf => 0
  | .fin x => (10 : ℝ) ^ (x / 20)

/-- Outcome of a `process_audio` run: the reportable early return when no
chunks were produced, a completed run handing the final buffer to export, or
a raised exception. -/
inductive PipelineResult where
  | noSegments : PipelineResult
  | exported : AudioSeg → PipelineResult
  | failed : PyError → PipelineResult

/-- `process_audio` from `src/main.py` (the pipeline on the decoded buffer,
after the out-of-scope `load_audio`): threshold = `dBFS − 16`; chunks =
`split_audio_on_silence(audio, 200, threshold, 0)`; an empty chunk list
prints "No chunks were created. Check the silence detection parameters." and
returns before any processing (modelled as `noSegments`); otherwise every
chunk is processed with multiplier 2, concatenated, and exported.  pydub
compares window RMS against `db_to_float(threshold) ·
max_possible_amplitude`, supplied here to the generic `split_audio_on_silence`
at `α = ℝ`. -/
noncomputable def process_audio (audio : AudioSeg) : PipelineResult :=
  match calculate_silence_threshold audio (-16) with
  | .error e => .failed e
  | .ok th =>
    match split_audio_on_silence audio 200 (dbToAmpFactor th * maxPossibleAmp audio.width) 0 with
    | [] => .noSegments
    | c :: cs =>
      match process_chunks (c :: cs) 2 with
      | .error e => .failed e
      | .ok pcs =>
        match concatenate_chunks pcs with
        | .error e => .failed e
        | .ok out => .exported out

/-- Whether an `Except` result succeeded. -/
def isOkE {β : Type} (x : Except PyError β) : Bool :=
  match x with
  | .ok _ => true
  | .error _ => false

/-- The successful buffer of an `Except` result (`emptySeg` on an error),
used to state facts about results that are separately proved `.ok`. -/
def okOr (x : Except PyError AudioSeg) : AudioSeg :=
  match x with
  | .ok s => s
  | .error _ => emptySeg

/-- The exact physical duration of a buffer in milliseconds,
`1000 · frames / rate` as a rational (pydub's `len()` is this value rounded
half-to-even to an integer; `duration_seconds` is this divided by 1000). -/
def durationMsQ (a : AudioSeg) : ℚ := 1000 * a.frames.length / a.rate

theorem isqrtIter_eq_iter (n : ℕ) :
    ∀ fuel guess, guess ≤ fuel → isqrtIter n fuel guess = Nat.sqrt.iter n guess := by
  intro fuel
  induction fuel with
  | zero =>
    intro g hg
    have hg0 : g = 0 := Nat.le_zero.mp hg
    subst hg0
    rw [isqrtIter, Nat.sqrt.iter]
    norm_num
  | succ f ih =>
    intro g hg
    rw [isqrtIter, Nat.sqrt.iter]
    by_cases h : (g + n / g) / 2 < g
    · simp only [h, if_true, dif_pos]
      exact ih _ (by omega)
    · simp only [h, if_false, dif_neg, not_false_iff]

/-- The fuel-based Newton iteration `isqrt` computes exactly `Nat.sqrt`. -/
theorem isqrt_eq_sqrt (n : ℕ) : isqrt n = Nat.sqrt n := by
  rw [isqrt, Nat.sqrt]
  by_cases h : n ≤ 1
  · simp [h]
  · simp only [h, if_false]
    exact isqrtIter_eq_iter n n (n / 2) (Nat.div_le_self n 2)

/-- `natRoundHalfEven q d` is within 1/2 of the exact quotient `q / d`. -/
theorem natRoundHalfEven_close (q d : ℕ) (hd : d ≠ 0) :
    |(natRoundHalfEven q d : ℚ) - (q : ℚ) / d| ≤ 1 / 2 := by
  have hd0 : (0 : ℚ) < d := by
    exact_mod_cast Nat.pos_of_ne_zero hd
  have hsplit : (q : ℚ) / d = (q / d : ℕ) + (q % d : ℕ) / d := by
    have hnat : q = q / d * d + q % d := (Nat.div_add_mod' q d).symm
    calc (q : ℚ) / d = ((q / d * d + q % d : ℕ) : ℚ) / d := by rw [← hnat]
      _ = (q / d : ℕ) + (q % d : ℕ) / d := by
          push_cast
          rw [add_div, mul_div_cancel_right₀ _ (ne_of_gt hd0)]
  have h0 : (0 : ℚ) ≤ (q % d : ℕ) / d := by positivity
  have h1 : (q % d : ℕ) / (d : ℚ) < 1 := by
    rw [div_lt_one hd0]
    exact_mod_cast Nat.mod_lt q (Nat.pos_of_ne_zero hd)
  rw [natRoundHalfEven]
  simp only [hd, if_false]
  split_ifs with hlt hgt hev
  · have : (q % d : ℕ) / (d : ℚ) < 1 / 2 := by
      rw [div_lt_div_iff hd0 (by norm_num)]
      exact_mod_cast by omega
    rw [hsplit, abs_le]
    constructor <;> push_cast <;> linarith
  · have : 1 / 2 < (q % d : ℕ) / (d : ℚ) := by
      rw [div_lt_div_iff (by norm_num) hd0]
      exact_mod_cast by omega
    rw [hsplit, abs_le]
    constructor <;> push_cast <;> linarith
  · have : (q % d : ℕ) / (d : ℚ) = 1 / 2 := by
      rw [div_eq_div_iff (ne_of_gt hd0) (by norm_num)]
      exact_mod_cast by omega
    rw [hsplit, abs_le]
    constructor <;> linarith
  · have : (q % d : ℕ) / (d : ℚ) = 1 / 2 := by
      rw [div_eq_div_iff (ne_of_gt hd0) (by norm_num)]
      exact_mod_cast by omega
    rw [hsplit, abs_le]
    constructor <;> push_cast <;> linarith

/-- `lenMs` is within half a millisecond of the exact duration. -/
theorem lenMs_close (a : AudioSeg) (hr : a.rate ≠ 0) :
    |(lenMs a : ℚ) - durationMsQ a| ≤ 1 / 2 := by
  have := natRoundHalfEven_close (1000 * a.frames.length) a.rate hr
  rw [lenMs, durationMsQ]
  simpa using this

theorem resampleFrames_nil (r1 r2 : ℕ) : resampleFrames [] r1 r2 = [] := by
  rcases r1 with _ | r1 <;> simp [resampleFrames, Nat.div_eq_of_lt, Nat.lt_succ_self]

/-- A slice of an all-zero buffer has RMS 0. -/
theorem sliceRms_zero (a : AudioSeg) (hz : ∀ f ∈ a.frames, ∀ x ∈ f, x = (0 : ℤ)) (i j : ℕ) :
    sliceRms a i j = 0 := by
  rw [sliceRms, rmsOf]
  have hall : ∀ z ∈ samplesOf (sliceMs a i j), z = (0 : ℤ) := by
    intro z hzmem
    rw [samplesOf] at hzmem
    obtain ⟨f, hf, hzf⟩ := List.mem_flatten.mp hzmem
    have hf' : f ∈ a.frames := by
      simp only [sliceMs] at hf
      exact List.mem_of_mem_take (List.mem_of_mem_drop hf)
    exact hz f hf' z hzf
  have hsum : (((samplesOf (sliceMs a i j)).map (fun z => (z * z).toNat)).sum) = 0 := by
    apply List.sum_eq_zero
    intro x hx
    obtain ⟨z, hz', hzx⟩ := List.mem_map.mp hx
    rw [hall z hz'] at hzx
    simpa using hzx.symm
  rw [hsum]
  simp [isqrt]

/-! ### Format bookkeeping lemmas for the pydub conversions -/

theorem bindE_ok {β γ : Type} (x : β) (f : β → Except PyError γ) :
    (Except.ok x >>= f) = f x := rfl

theorem bindE_pure {β γ : Type} (x : β) (f : β → Except PyError γ) :
    ((pure x : Except PyError β) >>= f) = f x := rfl

theorem set_sample_width_self (a : AudioSeg) (w : ℕ) (h : w = a.width) :
    set_sample_width a w = a := by
  rw [set_sample_width]
  simp [h]

theorem normalize_rate (a : AudioSeg) : (normalize a).rate = a.rate := by
  rw [normalize]; split_ifs <;> rfl

theorem normalize_channels (a : AudioSeg) : (normalize a).channels = a.channels := by
  rw [normalize]; split_ifs <;> rfl

theorem normalize_width (a : AudioSeg) : (normalize a).width = a.width := by
  rw [normalize]; split_ifs <;> rfl

theorem normalize_length (a : AudioSeg) : (normalize a).frames.length = a.frames.length := by
  rw [normalize]; split_ifs <;> simp

theorem lenMs_normalize (a : AudioSeg) : lenMs (normalize a) = lenMs a := by
  rw [lenMs, lenMs, normalize_length, normalize_rate]

theorem normalize_silent (a : AudioSeg) (h : maxAbsSample a = 0) : normalize a = a := by
  rw [normalize]; simp [h]

theorem set_channels_self (a : AudioSeg) : set_channels a a.channels = .ok a := by
  rw [set_channels]; simp

theorem set_channels_ok (a : AudioSeg) (n : ℕ)
    (h : n = a.channels ∨ (a.channels = 1 ∧ 1 ≤ n)) :
    ∃ b, set_channels a n = .ok b ∧ b.rate = a.rate ∧ b.channels = n ∧
      b.width = a.width ∧ b.frames.length = a.frames.length := by
  rw [set_channels]
  split_ifs with hA hB hC hD hE
  · exact ⟨a, rfl, rfl, hA.symm, rfl, rfl⟩
  · exact ⟨_, rfl, rfl, hB.1.symm, rfl, by simp⟩
  · exact ⟨_, rfl, rfl, hC.1.symm, rfl, by simp⟩
  · exact ⟨_, rfl, rfl, hD.symm, rfl, by simp⟩
  · exact ⟨_, rfl, rfl, rfl, rfl, by simp⟩
  · rcases h with h | ⟨h1, hn⟩
    · exact absurd h hA
    · exact absurd h1 hE

theorem set_frame_rate_rate (a : AudioSeg) (r : ℕ) : (set_frame_rate a r).rate = r := by
  rw [set_frame_rate]; split_ifs with h
  · exact h.symm
  · rfl

theorem set_frame_rate_channels (a : AudioSeg) (r : ℕ) :
    (set_frame_rate a r).channels = a.channels := by
  rw [set_frame_rate]; split_ifs <;> rfl

theorem set_frame_rate_width (a : AudioSeg) (r : ℕ) :
    (set_frame_rate a r).width = a.width := by
  rw [set_frame_rate]; split_ifs <;> rfl

theorem set_frame_rate_self (a : AudioSeg) (r : ℕ) (h : r = a.rate) :
    set_frame_rate a r = a := by
  rw [set_frame_rate]; simp [h]

theorem set_sample_width_width (a : AudioSeg) (w : ℕ) : (set_sample_width a w).width = w := by
  rw [set_sample_width]; split_ifs with h
  · exact h.symm
  · rfl
  · rfl

theorem set_sample_width_rate (a : AudioSeg) (w : ℕ) :
    (set_sample_width a w).rate = a.rate := by
  rw [set_sample_width]; split_ifs <;> rfl

theorem set_sample_width_channels (a : AudioSeg) (w : ℕ) :
    (set_sample_width a w).channels = a.channels := by
  rw [set_sample_width]; split_ifs <;> rfl

theorem set_sample_width_length (a : AudioSeg) (w : ℕ) :
    (set_sample_width a w).frames.length = a.frames.length := by
  rw [set_sample_width]; split_ifs <;> simp

theorem syncTo_ok (a : AudioSeg) (ch r w : ℕ)
    (h : ch = a.channels ∨ (a.channels = 1 ∧ 1 ≤ ch)) :
    ∃ b, syncTo a ch r w = .ok b ∧ b.rate = r ∧ b.channels = ch ∧ b.width = w ∧
      (r = a.rate → b.frames.length = a.frames.length) := by
  obtain ⟨b1, hb1, hr1, hc1, hw1, hl1⟩ := set_channels_ok a ch h
  refine ⟨set_sample_width (set_frame_rate b1 r) w, ?_, ?_, ?_, ?_, ?_⟩
  · rw [syncTo, hb1]; rfl
  · rw [set_sample_width_rate, set_frame_rate_rate]
  · rw [set_sample_width_channels, set_frame_rate_channels, hc1]
  · rw [set_sample_width_width]
  · intro hra
    rw [set_sample_width_length, set_frame_rate_self b1 r (by rw [hra, hr1]), hl1]

theorem appendSeg_ok (a b : AudioSeg)
    (ha : max a.channels b.channels = a.channels ∨
      (a.channels = 1 ∧ 1 ≤ max a.channels b.channels))
    (hb : max a.channels b.channels = b.channels ∨
      (b.channels = 1 ∧ 1 ≤ max a.channels b.channels)) :
    ∃ c2, appendSeg a b = .ok c2 ∧ c2.rate = max a.rate b.rate ∧
      c2.channels = max a.channels b.channels ∧ c2.width = max a.width b.width ∧
      (a.rate = b.rate →
        c2.frames.length = a.frames.length + b.frames.length) := by
  obtain ⟨a2, hsa, _, _, _, hla⟩ :=
    syncTo_ok a (max a.channels b.channels) (max a.rate b.rate) (max a.width b.width) ha
  obtain ⟨b2, hsb, _, _, _, hlb⟩ :=
    syncTo_ok b (max a.channels b.channels) (max a.rate b.rate) (max a.width b.width) hb
  refine ⟨AudioSeg.mk (max a.rate b.rate) (max a.channels b.channels)
      (max a.width b.width) (a2.frames ++ b2.frames), ?_, rfl, rfl, rfl, ?_⟩
  · rw [appendSeg, hsa, bindE_ok, hsb, bindE_ok]
    rfl
  · intro hr
    have hra : max a.rate b.rate = a.rate := by rw [hr, max_self]
    have hrb : max a.rate b.rate = b.rate := by rw [hr, max_self]
    show (a2.frames ++ b2.frames).length = _
    rw [List.length_append, hla hra, hlb hrb]

theorem appendSeg_same (r c w : ℕ) (f1 f2 : List (List ℤ)) :
    appendSeg ⟨r, c, w, f1⟩ ⟨r, c, w, f2⟩ = .ok ⟨r, c, w, f1 ++ f2⟩ := by
  have h1 : set_channels ⟨r, c, w, f1⟩ c = .ok ⟨r, c, w, f1⟩ := set_channels_self _
  have h2 : set_channels ⟨r, c, w, f2⟩ c = .ok ⟨r, c, w, f2⟩ := set_channels_self _
  have h3 : set_frame_rate ⟨r, c, w, f1⟩ r = ⟨r, c, w, f1⟩ := set_frame_rate_self _ _ rfl
  have h4 : set_frame_rate ⟨r, c, w, f2⟩ r = ⟨r, c, w, f2⟩ := set_frame_rate_self _ _ rfl
  have h5 : set_sample_width ⟨r, c, w, f1⟩ w = ⟨r, c, w, f1⟩ := set_sample_width_self _ _ rfl
  have h6 : set_sample_width ⟨r, c, w, f2⟩ w = ⟨r, c, w, f2⟩ := set_sample_width_self _ _ rfl
  simp only [appendSeg, syncTo, max_self, h1, h2, bindE_ok, bindE_pure, h3, h4, h5, h6]
  rfl

theorem appendSeg_emptyLeft (x : AudioSeg) (hr : 1 ≤ x.rate) (hc : 1 ≤ x.channels)
    (hw : 1 ≤ x.width) : appendSeg emptySeg x = .ok x := by
  obtain ⟨b1, hb1, hr1, hc1, hw1, hl1⟩ :=
    set_channels_ok emptySeg x.channels (Or.inr ⟨rfl, hc⟩)
  have hb1f : b1.frames = [] := List.length_eq_zero.mp (by rw [hl1]; rfl)
  have hfr : (set_frame_rate b1 x.rate).frames = [] := by
    rw [set_frame_rate]
    split_ifs
    · exact hb1f
    · simp [hb1f, resampleFrames_nil]
  have hmaxr : max emptySeg.rate x.rate = x.rate := max_eq_right hr
  have hmaxc : max emptySeg.channels x.channels = x.channels := max_eq_right hc
  have hmaxw : max emptySeg.width x.width = x.width := max_eq_right hw
  have hsync : syncTo emptySeg x.channels x.rate x.width =
      .ok (set_sample_width (set_frame_rate b1 x.rate) x.width) := by
    rw [syncTo, hb1]; rfl
  have hsw : (set_sample_width (set_frame_rate b1 x.rate) x.width).frames = [] := by
    rw [set_sample_width]
    split_ifs <;> simp [hfr]
  have hsyncx : syncTo x x.channels x.rate x.width = .ok x := by
    rw [syncTo, set_channels_self, bindE_ok, set_frame_rate_self x x.rate rfl,
      set_sample_width_self x x.width rfl]
    rfl
  rw [appendSeg, hmaxr, hmaxc, hmaxw, hsync, bindE_ok, hsyncx, bindE_ok, hsw]
  show Except.ok _ = _
  rw [List.nil_append]

theorem foldlM_appendSeg_same (r c w : ℕ) :
    ∀ (rest : List AudioSeg) (acc : List (List ℤ)),
      (∀ x ∈ rest, x.rate = r ∧ x.channels = c ∧ x.width = w) →
      List.foldlM appendSeg (AudioSeg.mk r c w acc) rest =
        .ok (AudioSeg.mk r c w (acc ++ (rest.map AudioSeg.frames).flatten)) := by
  intro rest
  induction rest with
  | nil => intro acc _; simp [List.foldlM]; rfl
  | cons x rest ih =>
    intro acc hall
    obtain ⟨hxr, hxc, hxw⟩ := hall x (by simp)
    have hx : x = AudioSeg.mk r c w x.frames := by
      cases x
      simp_all
    rw [List.foldlM_cons, hx, appendSeg_same, bindE_ok,
      ih (acc ++ x.frames) (fun y hy => hall y (by simp [hy]))]
    simp

theorem concatenate_same (cs : List AudioSeg) (r c w : ℕ) (hr : 1 ≤ r) (hc : 1 ≤ c)
    (hw : 1 ≤ w) (hall : ∀ x ∈ cs, x.rate = r ∧ x.channels = c ∧ x.width = w)
    (hne : cs ≠ []) :
    concatenate_chunks cs = .ok (AudioSeg.mk r c w ((cs.map AudioSeg.frames).flatten)) := by
  rcases cs with _ | ⟨x, rest⟩
  · exact absurd rfl hne
  · obtain ⟨hxr, hxc, hxw⟩ := hall x (by simp)
    have hx : x = AudioSeg.mk r c w x.frames := by
      cases x
      simp_all
    rw [concatenate_chunks, List.foldlM_cons,
      appendSeg_emptyLeft x (hxr ▸ hr) (hxc ▸ hc) (hxw ▸ hw), bindE_ok, hx,
      foldlM_appendSeg_same r c w rest x.frames (fun y hy => hall y (by simp [hy]))]
    simp

theorem foldlM_appendSeg_isOk :
    ∀ (rest : List AudioSeg) (acc : AudioSeg),
      (acc.channels = 1 ∨ acc.channels = 2) →
      (∀ x ∈ rest, x.channels = 1 ∨ x.channels = 2) →
      isOkE (List.foldlM appendSeg acc rest) = true := by
  intro rest
  induction rest with
  | nil => intro acc _ _; rfl
  | cons x rest ih =>
    intro acc hacc hall
    have hx := hall x (by simp)
    have hch : max acc.channels x.channels = acc.channels ∨
        (acc.channels = 1 ∧ 1 ≤ max acc.channels x.channels) := by
      rcases hacc with h | h <;> rcases hx with h' | h' <;> rw [h, h'] <;> simp
    have hchb : max acc.channels x.channels = x.channels ∨
        (x.channels = 1 ∧ 1 ≤ max acc.channels x.channels) := by
      rcases hacc with h | h <;> rcases hx with h' | h' <;> rw [h, h'] <;> simp
    obtain ⟨c2, hc2, _, hc2c, _, _⟩ := appendSeg_ok acc x hch hchb
    rw [List.foldlM_cons, hc2, bindE_ok]
    refine ih c2 ?_ (fun y hy => hall y (by simp [hy]))
    rw [hc2c]
    rcases hacc with h | h <;> rcases hx with h' | h' <;> rw [h, h'] <;> simp

/-- What `process_chunk` produces: format of the result, and the exact frame
count when the chunk is already at the silence default rate of 11025 Hz. -/
theorem process_chunk_ok (chunk : AudioSeg) (m : ℚ) (hc : 1 ≤ chunk.channels) :
    ∃ out, process_chunk chunk m = .ok out ∧ out.rate = max chunk.rate 11025 ∧
      out.channels = chunk.channels ∧ out.width = max chunk.width 2 ∧
      (chunk.rate = 11025 → out.frames.length = chunk.frames.length +
        ((11025 * ((lenMs chunk : ℤ) * m.num)).fdiv (1000 * (m.den : ℤ))).toNat) := by
  have hcc : (normalize chunk).channels = chunk.channels := normalize_channels chunk
  have hcr : (normalize chunk).rate = chunk.rate := normalize_rate chunk
  have hcw : (normalize chunk).width = chunk.width := normalize_width chunk
  have hcl : (normalize chunk).frames.length = chunk.frames.length := normalize_length chunk
  have hlen : lenMs (normalize chunk) = lenMs chunk := lenMs_normalize chunk
  have hsill : (silentSeg ((lenMs (normalize chunk) : ℤ) * m.num) (m.den : ℤ)).frames.length
      = ((11025 * ((lenMs chunk : ℤ) * m.num)).fdiv (1000 * (m.den : ℤ))).toNat := by
    rw [silentSeg, hlen]
    simp
  have hmax : max (normalize chunk).channels
      (silentSeg ((lenMs (normalize chunk) : ℤ) * m.num) (m.den : ℤ)).channels
      = (normalize chunk).channels := max_eq_left (by rw [hcc]; exact hc)
  obtain ⟨out, hout, hor, hoc, how, holen⟩ :=
    appendSeg_ok (normalize chunk)
      (silentSeg ((lenMs (normalize chunk) : ℤ) * m.num) (m.den : ℤ))
      (Or.inl hmax) (Or.inr ⟨rfl, by rw [hmax, hcc]; exact hc⟩)
  refine ⟨out, ?_, ?_, ?_, ?_, ?_⟩
  · rw [process_chunk]
    exact hout
  · rw [hor, hcr]
    rfl
  · rw [hoc, hmax, hcc]
  · rw [how, hcw]
    rfl
  · intro h11
    rw [holen (by rw [hcr, h11]; rfl), hcl, hsill]

/-! ### Claims -/

/-- C3 (corrected).  The claim asserted that normalization leaves both
peak-at-maximum buffers and fully silent buffers byte-identical.  Only the
silent half survives: `pydub.effects.normalize` returns a buffer unchanged
exactly when its peak is 0.  (A peak-at-maximum buffer is *attenuated* by the
default 0.1 dB headroom — see the counterexample.) -/
theorem claim_C3 : ∀ a : AudioSeg, maxAbsSample a = 0 → normalize a = a :=
  fun a h => normalize_silent a h

theorem claim_C3_witness :
    maxAbsSample ⟨1000, 1, 2, [[0], [0]]⟩ = 0 ∧
      normalize ⟨1000, 1, 2, [[0], [0]]⟩ = ⟨1000, 1, 2, [[0], [0]]⟩ :=
  ⟨by decide, claim_C3 _ (by decide)⟩

/-- C4 (corrected).  `calculate_silence_threshold` never raises — there is no
`InvalidBufferError` anywhere in the program, and `audio.dBFS` is total: a
zero-RMS buffer (in particular the zero-sample buffer) gets the −∞ floor, and
`-inf + offset = -inf`; every other buffer gets its RMS expressed in dB plus
`offset_db`. -/
theorem claim_C4 : ∀ (audio : AudioSeg) (off : ℚ),
    isOkE (calculate_silence_threshold audio off) = true ∧
    (rmsOf audio = 0 → calculate_silence_threshold audio off = .ok Db.negInf) ∧
    (rmsOf audio ≠ 0 → calculate_silence_threshold audio off =
      .ok (Db.fin (20 * Real.logb 10 ((rmsOf audio : ℝ) / maxPossibleAmp audio.width) + off))) := by
  intro audio off
  refine ⟨rfl, ?_, ?_⟩
  · intro h
    rw [calculate_silence_threshold, dBFS]
    simp [h, dbAdd]
  · intro h
    rw [calculate_silence_threshold, dBFS]
    simp [h, dbAdd]

/-- C4 counterexample: the claim says a zero-sample buffer makes
`calculate_silence_threshold` raise `InvalidBufferError`; instead the call
returns normally (with the −∞ dBFS floor). -/
theorem claim_C4_counterexample :
    calculate_silence_threshold ⟨44100, 2, 2, []⟩ (-16) = .ok Db.negInf := rfl

theorem claim_C4_witness :
    rmsOf ⟨1000, 1, 2, [[3], [4]]⟩ ≠ 0 ∧
      calculate_silence_threshold ⟨1000, 1, 2, [[3], [4]]⟩ (-16) =
        .ok (Db.fin (20 * Real.logb 10 ((rmsOf ⟨1000, 1, 2, [[3], [4]]⟩ : ℝ) /
          maxPossibleAmp (AudioSeg.mk 1000 1 2 [[3], [4]]).width) + ((-16 : ℚ) : ℝ))) :=
  ⟨by decide, (claim_C4 ⟨1000, 1, 2, [[3], [4]]⟩ (-16)).2.2 (by decide)⟩

/-- C5 (corrected).  `concatenate_chunks` contains no format check and can
never raise an `IncompatibleFormatError` (no such class exists): chunks with
mismatched sample rates or widths are silently converted by `pydub`'s `_sync`
to the maximal format and concatenation succeeds.  In particular it succeeds
on every list of mono/stereo chunks regardless of rates and widths — so also
whenever all formats match.  (The only exception any input could raise is
pydub's `ValueError` for an unsupported channel conversion such as 2→3.) -/
theorem claim_C5 : ∀ chunks : List AudioSeg,
    (∀ x ∈ chunks, x.channels = 1 ∨ x.channels = 2) →
    isOkE (concatenate_chunks chunks) = true := by
  intro chunks hall
  exact foldlM_appendSeg_isOk chunks emptySeg (Or.inl rfl) hall

/-- C5 counterexample: two chunks with different sample rates — the claim
says `IncompatibleFormatError` is raised; instead concatenation succeeds. -/
theorem claim_C5_counterexample :
    isOkE (concatenate_chunks [⟨11025, 1, 2, [[0]]⟩, ⟨22050, 1, 2, [[5]]⟩]) = true ∧
      (AudioSeg.mk 11025 1 2 [[0]]).rate ≠ (AudioSeg.mk 22050 1 2 [[5]]).rate := by
  exact ⟨by decide, by decide⟩

theorem claim_C5_witness :
    isOkE (concatenate_chunks [⟨8000, 1, 1, [[1]]⟩, ⟨44100, 2, 2, [[2, 3]]⟩]) = true :=
  claim_C5 [⟨8000, 1, 1, [[1]]⟩, ⟨44100, 2, 2, [[2, 3]]⟩] (by decide)

/-- For a list of chunks sharing one rate, the exact durations add up to the
duration of the combined frame list. -/
theorem sum_durationMsQ (r : ℕ) : ∀ cs : List AudioSeg, (∀ x ∈ cs, x.rate = r) →
    (cs.map durationMsQ).sum = 1000 * ((cs.map AudioSeg.frames).flatten.length : ℚ) / r := by
  intro cs
  induction cs with
  | nil => intro _; simp
  | cons y ys ih =>
    intro hall
    simp only [List.map_cons, List.sum_cons, List.flatten_cons, List.length_append]
    rw [ih (fun x hx => hall x (by simp [hx])), durationMsQ, (hall y (by simp) : y.rate = r)]
    push_cast
    rw [div_add_div_same]
    ring_nf

/-- C9 (confirmed).  For matching formats, `concatenate_chunks` returns the
chunks' frames appended in input order with no gaps, reordering or trimming;
the frame count and the exact physical duration are additive; and the empty
list yields `AudioSegment.empty()` (a zero-duration buffer), not an error. -/
theorem claim_C9 :
    concatenate_chunks [] = .ok emptySeg ∧ durationMsQ emptySeg = 0 ∧
    ∀ (cs : List AudioSeg) (r c w : ℕ), 1 ≤ r → 1 ≤ c → 1 ≤ w →
      (∀ x ∈ cs, x.rate = r ∧ x.channels = c ∧ x.width = w) → cs ≠ [] →
      concatenate_chunks cs = .ok (AudioSeg.mk r c w ((cs.map AudioSeg.frames).flatten)) ∧
      (okOr (concatenate_chunks cs)).frames = (cs.map AudioSeg.frames).flatten ∧
      durationMsQ (okOr (concatenate_chunks cs)) = (cs.map durationMsQ).sum := by
  refine ⟨rfl, by simp [durationMsQ, emptySeg], ?_⟩
  intro cs r c w hr hc hw hall hne
  have hcat := concatenate_same cs r c w hr hc hw hall hne
  refine ⟨hcat, by rw [hcat]; rfl, ?_⟩
  rw [hcat, sum_durationMsQ r cs (fun x hx => (hall x hx).1)]
  rfl

/-- C1 (corrected).  The claim said the padding is synthesized at the input
segment's sample rate and channel count and that the returned chunk keeps the
input format.  In the code `AudioSegment.silent(duration=...)` is called with
no `frame_rate`/`channels` arguments, so the pad is always at pydub's
defaults — 11025 Hz, mono, 16-bit — whatever the input format is.  Appending
then `_sync`s both buffers to the maximal format: the returned chunk keeps
the input's channel count, but its sample rate is `max(input, 11025)` and its
sample width `max(input, 2)` — the input format is preserved only when the
input is at ≥ 11025 Hz with ≥ 16-bit samples. -/
theorem claim_C1 : ∀ (chunk : AudioSeg) (m : ℚ), 1 ≤ chunk.channels →
    (processChunkPad chunk m).rate = 11025 ∧ (processChunkPad chunk m).channels = 1 ∧
    (processChunkPad chunk m).width = 2 ∧
    isOkE (process_chunk chunk m) = true ∧
    (okOr (process_chunk chunk m)).rate = max chunk.rate 11025 ∧
    (okOr (process_chunk chunk m)).channels = chunk.channels ∧
    (okOr (process_chunk chunk m)).width = max chunk.width 2 := by
  intro chunk m hc
  obtain ⟨out, hout, hor, hoc, how, _⟩ := process_chunk_ok chunk m hc
  refine ⟨rfl, rfl, rfl, ?_, ?_, ?_, ?_⟩
  · rw [hout]
    rfl
  · rw [hout]
    exact hor
  · rw [hout]
    exact hoc
  · rw [hout]
    exact how

set_option maxRecDepth 400000 in
/-- C1 counterexample: an 8000 Hz mono segment.  The synthesized padding is
at 11025 Hz (not 8000), and the returned chunk is at 11025 Hz — the input's
sample rate is not preserved, contradicting the claim. -/
theorem claim_C1_counterexample :
    (processChunkPad (AudioSeg.mk 8000 1 2 (List.replicate 16 [0])) 2).rate = 11025 ∧
    (AudioSeg.mk 8000 1 2 (List.replicate 16 [0])).rate = 8000 ∧
    isOkE (process_chunk (AudioSeg.mk 8000 1 2 (List.replicate 16 [0])) 2) = true ∧
    (okOr (process_chunk (AudioSeg.mk 8000 1 2 (List.replicate 16 [0])) 2)).rate = 11025 := by
  refine ⟨rfl, rfl, ?_, ?_⟩ <;> decide

theorem claim_C1_witness :
    (processChunkPad (AudioSeg.mk 44100 2 2 [[5, 6]]) 2).rate = 11025 ∧
    (processChunkPad (AudioSeg.mk 44100 2 2 [[5, 6]]) 2).channels = 1 ∧
    (processChunkPad (AudioSeg.mk 44100 2 2 [[5, 6]]) 2).width = 2 ∧
    isOkE (process_chunk (AudioSeg.mk 44100 2 2 [[5, 6]]) 2) = true ∧
    (okOr (process_chunk (AudioSeg.mk 44100 2 2 [[5, 6]]) 2)).rate =
      max (AudioSeg.mk 44100 2 2 [[5, 6]]).rate 11025 ∧
    (okOr (process_chunk (AudioSeg.mk 44100 2 2 [[5, 6]]) 2)).channels =
      (AudioSeg.mk 44100 2 2 [[5, 6]]).channels ∧
    (okOr (process_chunk (AudioSeg.mk 44100 2 2 [[5, 6]]) 2)).width =
      max (AudioSeg.mk 44100 2 2 [[5, 6]]).width 2 :=
  claim_C1 (AudioSeg.mk 44100 2 2 [[5, 6]]) 2 (by decide)

/-- Collapsing a contiguous run of silent-window starts `prev+1, …, prev+k`
yields the single silent range `[cur, prev + k + minLen]`. -/
theorem combineGo_run (minLen : ℕ) :
    ∀ (k cur prev : ℕ),
      combineGo minLen cur prev (List.range' (prev + 1) k) = [(cur, prev + k + minLen)] := by
  intro k
  induction k with
  | zero =>
    intro cur prev
    rw [List.range'_zero, combineGo]
    norm_num
  | succ n ih =>
    intro cur prev
    rw [List.range'_succ, combineGo, if_neg (by simp), ih cur (prev + 1)]
    simp only [List.cons.injEq, Prod.mk.injEq, and_true, true_and]
    omega

/-- The specialisation of `combineGo_run` that `detect_silence` reaches when
every window is silent. -/
theorem combineGo_run0 (minLen k : ℕ) :
    combineGo minLen 0 0 (List.range' 1 k) = [(0, k + minLen)] := by
  have h := combineGo_run minLen k 0 0
  norm_num at h
  exact h

/-- When the buffer is at least `minLen` long and every length-`minLen`
window is silent, `detect_silence` reports the single range `[0, L]`. -/
theorem detect_silence_all {α : Type} [LinearOrderedField α] (a : AudioSeg)
    (minLen : ℕ) (th : α) (hL : minLen ≤ lenMs a)
    (hsil : ∀ i, i ≤ lenMs a - minLen → (sliceRms a i (i + minLen) : α) ≤ th) :
    detect_silence a minLen th = [(0, lenMs a)] := by
  have hfil : (List.range (lenMs a - minLen + 1)).filter
      (fun i => decide ((sliceRms a i (i + minLen) : α) ≤ th))
      = List.range (lenMs a - minLen + 1) := by
    apply List.filter_eq_self.mpr
    intro x hx
    rw [List.mem_range] at hx
    simpa using hsil x (by omega)
  have hcons : List.range (lenMs a - minLen + 1)
      = 0 :: List.range' 1 (lenMs a - minLen) := by
    rw [List.range_eq_range', List.range'_succ]
  simp only [detect_silence]
  rw [if_neg (by omega), hfil, hcons]
  show combineGo minLen 0 0 (List.range' 1 (lenMs a - minLen)) = [(0, lenMs a)]
  rw [combineGo_run0]
  simp only [List.cons.injEq, Prod.mk.injEq, true_and, and_true]
  omega

/-- When no length-`minLen` window is silent, or the buffer is shorter than
`minLen`, `detect_silence` reports nothing. -/
theorem detect_silence_none {α : Type} [LinearOrderedField α] (a : AudioSeg)
    (minLen : ℕ) (th : α)
    (h : (∀ i, i ≤ lenMs a - minLen → ¬((sliceRms a i (i + minLen) : α) ≤ th))
      ∨ lenMs a < minLen) :
    detect_silence a minLen th = [] := by
  simp only [detect_silence]
  by_cases hL : lenMs a < minLen
  · rw [if_pos hL]
  · rw [if_neg hL]
    rcases h with h | h
    · have hfil : (List.range (lenMs a - minLen + 1)).filter
          (fun i => decide ((sliceRms a i (i + minLen) : α) ≤ th)) = [] := by
        apply List.filter_eq_nil_iff.mpr
        intro x hx
        rw [List.mem_range] at hx
        simpa using h x (by omega)
      rw [hfil]
    · omega

/-- All-silent buffers of at least `minLen` milliseconds produce no
nonsilent range at all. -/
theorem detect_nonsilent_all {α : Type} [LinearOrderedField α] (a : AudioSeg)
    (minLen : ℕ) (th : α) (hL : minLen ≤ lenMs a)
    (hsil : ∀ i, i ≤ lenMs a - minLen → (sliceRms a i (i + minLen) : α) ≤ th) :
    detect_nonsilent a minLen th = [] := by
  rw [detect_nonsilent, detect_silence_all a minLen th hL hsil]
  simp

/-- With no detected silence, `detect_nonsilent` reports the whole buffer. -/
theorem detect_nonsilent_whole {α : Type} [LinearOrderedField α] (a : AudioSeg)
    (minLen : ℕ) (th : α)
    (h : (∀ i, i ≤ lenMs a - minLen → ¬((sliceRms a i (i + minLen) : α) ≤ th))
      ∨ lenMs a < minLen) :
    detect_nonsilent a minLen th = [(0, lenMs a)] := by
  rw [detect_nonsilent, detect_silence_none a minLen th h]

/-- No nonsilent ranges means no chunk boundaries. -/
theorem splitRanges_nil {α : Type} [LinearOrderedField α] (a : AudioSeg)
    (minLen : ℕ) (th : α) (keep : ℕ)
    (hnd : detect_nonsilent a minLen th = []) :
    splitRanges a minLen th keep = [] := by
  simp only [splitRanges]
  rw [hnd]
  rfl

/-- A single whole-buffer nonsilent range comes back out of the expansion,
overlap fix and clamping as the whole buffer. -/
theorem splitRanges_whole {α : Type} [LinearOrderedField α] (a : AudioSeg)
    (minLen : ℕ) (th : α) (keep : ℕ)
    (hnd : detect_nonsilent a minLen th = [(0, lenMs a)]) :
    splitRanges a minLen th keep = [(0, (lenMs a : ℤ))] := by
  simp only [splitRanges]
  rw [hnd]
  simp only [List.map_cons, List.map_nil, fixOverlapsPy, fixGo]
  simp only [Nat.cast_zero, List.cons.injEq, Prod.mk.injEq, and_true, true_and]
  omega

/-- C7 (amended) — `split_audio_on_silence` returns an empty sequence when
the buffer is at least `min_silence_len` long and every `min_silence_len`
window is silent (below the amplitude threshold); it returns exactly one
segment spanning the whole buffer when no `min_silence_len` window is silent
or the buffer is shorter than `min_silence_len`.  (As stated the claim fails
for silent buffers shorter than `min_silence_len`, and its "every silent run
shorter than minSilenceLenMs" reading of the one-segment case differs from
pydub's window-RMS test — see the counterexample.) -/
theorem claim_C7 : ∀ {α : Type} [_inst : LinearOrderedField α] (a : AudioSeg)
    (minLen : ℕ) (th : α) (keep : ℕ),
    ((minLen ≤ lenMs a ∧
        ∀ i, i ≤ lenMs a - minLen → (sliceRms a i (i + minLen) : α) ≤ th) →
      split_audio_on_silence a minLen th keep = []) ∧
    (((∀ i, i ≤ lenMs a - minLen → ¬((sliceRms a i (i + minLen) : α) ≤ th))
        ∨ lenMs a < minLen) →
      split_audio_on_silence a minLen th keep = [sliceMs a 0 (lenMs a)]) := by
  intro α _inst a minLen th keep
  constructor
  · rintro ⟨hL, hsil⟩
    have hsr := splitRanges_nil a minLen th keep (detect_nonsilent_all a minLen th hL hsil)
    show (splitRanges a minLen th keep).map (fun p => sliceMs a p.1.toNat p.2.toNat) = []
    rw [hsr]
    rfl
  · intro h
    have hsr := splitRanges_whole a minLen th keep (detect_nonsilent_whole a minLen th h)
    show (splitRanges a minLen th keep).map (fun p => sliceMs a p.1.toNat p.2.toNat)
      = [sliceMs a 0 (lenMs a)]
    rw [hsr]
    simp

set_option maxRecDepth 400000 in
/-- Counterexample to C7 as stated: a buffer that is silent throughout (one
zero frame, 100 ms at 10 Hz) but shorter than `min_silence_len = 200` yields
one whole-buffer segment, not the empty sequence the claim promises for
entirely-silent input. -/
theorem claim_C7_counterexample :
    (∀ f ∈ (AudioSeg.mk 10 1 2 [[0]]).frames, ∀ x ∈ f, x = (0 : ℤ)) ∧
    split_audio_on_silence (AudioSeg.mk 10 1 2 [[0]]) 200 ((0 : ℚ)) 0
      = [AudioSeg.mk 10 1 2 [[0]]] := by
  constructor
  · decide
  · decide

set_option maxRecDepth 400000 in
/-- Witness for C7: a 300 ms all-zero buffer at 10 Hz with
`min_silence_len = 200` comes back empty, and a 5 ms all-loud buffer at
1000 Hz with `min_silence_len = 2` and threshold 400 comes back as one
whole-buffer segment. -/
theorem claim_C7_witness :
    split_audio_on_silence (AudioSeg.mk 10 1 2 (List.replicate 3 [0])) 200 ((0 : ℚ)) 0
      = [] ∧
    split_audio_on_silence (AudioSeg.mk 1000 1 2 (List.replicate 5 [1000])) 2 ((400 : ℚ)) 0
      = [sliceMs (AudioSeg.mk 1000 1 2 (List.replicate 5 [1000])) 0 5] :=
  ⟨(claim_C7 _ 200 0 0).1 ⟨by decide, by decide⟩,
   (claim_C7 _ 2 400 0).2 (Or.inl (by decide))⟩

/-- `10^(-0.1/20) < 32767/32768`: pydub's default 0.1 dB of normalize
headroom is more than one 16-bit quantisation step below full scale. -/
theorem headroom_lt : (10 : ℝ) ^ (-(1 : ℝ) / 200) < 32767 / 32768 := by
  have hpow : ((32768 : ℝ) / 32767) ^ (200 : ℕ) < 10 := by
    have hx : ((32768 : ℝ) / 32767) = 1 + 1 / 32767 := by norm_num
    have h1 : (1 + 1 / 32767 : ℝ) ≤ Real.exp (1 / 32767) := by
      have := Real.add_one_le_exp (1 / 32767 : ℝ)
      linarith
    have h2 : (1 + 1 / 32767 : ℝ) ^ (200 : ℕ) ≤ Real.exp (1 / 32767) ^ (200 : ℕ) :=
      pow_le_pow_left (by norm_num) h1 200
    have h3 : Real.exp (1 / 32767 : ℝ) ^ (200 : ℕ) = Real.exp (200 * (1 / 32767)) := by
      rw [← Real.exp_nat_mul]
      norm_num
    have h4 : Real.exp (200 * (1 / 32767 : ℝ)) < Real.exp 1 := by
      rw [Real.exp_lt_exp]
      norm_num
    have h5 := Real.exp_one_lt_d9
    rw [hx]
    calc (1 + 1 / 32767 : ℝ) ^ (200 : ℕ)
        ≤ Real.exp (1 / 32767) ^ (200 : ℕ) := h2
      _ = Real.exp (200 * (1 / 32767)) := h3
      _ < Real.exp 1 := h4
      _ < 2.7182818286 := h5
      _ < 10 := by norm_num
  have hkey : (32768 : ℝ) / 32767 < (10 : ℝ) ^ ((1 : ℝ) / 200) := by
    by_contra hle
    push_neg at hle
    have hid : ((10 : ℝ) ^ ((1 : ℝ) / 200)) ^ (200 : ℕ) = 10 := by
      rw [← Real.rpow_natCast ((10 : ℝ) ^ ((1 : ℝ) / 200)) 200,
        ← Real.rpow_mul (by norm_num)]
      norm_num
    have hmono : ((10 : ℝ) ^ ((1 : ℝ) / 200)) ^ (200 : ℕ)
        ≤ ((32768 : ℝ) / 32767) ^ (200 : ℕ) :=
      pow_le_pow_left (by positivity) hle 200
    rw [hid] at hmono
    linarith
  have hp : (0 : ℝ) < (10 : ℝ) ^ ((1 : ℝ) / 200) := by positivity
  have hneg : (10 : ℝ) ^ (-(1 : ℝ) / 200) = ((10 : ℝ) ^ ((1 : ℝ) / 200))⁻¹ := by
    rw [← Real.rpow_neg (by norm_num)]
    norm_num
  rw [hneg, inv_eq_one_div, div_lt_div_iff hp (by norm_num : (0 : ℝ) < 32768)]
  nlinarith [hkey]

/-- The frame data `normalize` produces on a buffer with a nonzero peak. -/
theorem normalize_frames_of_ne (a : AudioSeg) (h : ¬(maxAbsSample a = 0)) :
    (normalize a).frames = a.frames.map (fun f => f.map (fun x =>
      fboundR a.width ((x : ℝ) * (maxPossibleAmp a.width * (10 : ℝ) ^ (-(1 : ℝ) / 200)
        / (maxAbsSample a : ℝ))))) := by
  rw [normalize]
  simp only [if_neg h]

set_option maxRecDepth 400000 in
/-- Counterexample to the peak-at-maximum half of C3: the one-sample 16-bit
buffer at the representable maximum 32767 is *changed* by `normalize` — the
default 0.1 dB headroom scales full scale down to
`⌊32768 · 10^(-0.005)⌋ = 32392 < 32767`. -/
theorem claim_C3_counterexample :
    maxAbsSample (AudioSeg.mk 11025 1 2 [[32767]]) = 2 ^ (8 * 2) / 2 - 1 ∧
    normalize (AudioSeg.mk 11025 1 2 [[32767]]) ≠ AudioSeg.mk 11025 1 2 [[32767]] := by
  refine ⟨by decide, ?_⟩
  intro heq
  have hne0 : ¬(maxAbsSample (AudioSeg.mk 11025 1 2 [[32767]]) = 0) := by decide
  have hpeak : maxAbsSample (AudioSeg.mk 11025 1 2 [[32767]]) = 32767 := by decide
  have hnf : (normalize (AudioSeg.mk 11025 1 2 [[32767]])).frames
      = [[fboundR 2 (((32767 : ℤ) : ℝ) * (maxPossibleAmp 2 * (10 : ℝ) ^ (-(1 : ℝ) / 200)
          / ((32767 : ℕ) : ℝ)))]] := by
    rw [normalize_frames_of_ne _ hne0, hpeak]
    rfl
  rw [heq] at hnf
  have hx : fboundR 2 (((32767 : ℤ) : ℝ) * (maxPossibleAmp 2 * (10 : ℝ) ^ (-(1 : ℝ) / 200)
      / ((32767 : ℕ) : ℝ))) = 32767 := by
    simpa using hnf.symm
  have hval : ((32767 : ℤ) : ℝ) * (maxPossibleAmp 2
      * (10 : ℝ) ^ (-(1 : ℝ) / 200) / ((32767 : ℕ) : ℝ))
      = 32768 * (10 : ℝ) ^ (-(1 : ℝ) / 200) := by
    have hmp : maxPossibleAmp 2 = 32768 := by
      rw [maxPossibleAmp]
      norm_num
    rw [hmp]
    push_cast
    field_simp
  rw [hval] at hx
  have hvlt : 32768 * (10 : ℝ) ^ (-(1 : ℝ) / 200) < 32767 := by
    have := headroom_lt
    nlinarith
  have hvpos : (0 : ℝ) < 32768 * (10 : ℝ) ^ (-(1 : ℝ) / 200) := by positivity
  have hfb : fboundR 2 (32768 * (10 : ℝ) ^ (-(1 : ℝ) / 200)) < 32767 := by
    simp only [fboundR]
    split_ifs with hA hB
    · exfalso
      norm_num at hA
      linarith
    · norm_num
    · have hfle : (⌊(32768 * (10 : ℝ) ^ (-(1 : ℝ) / 200))⌋ : ℝ)
          ≤ 32768 * (10 : ℝ) ^ (-(1 : ℝ) / 200) := Int.floor_le _
      have hlt : (⌊(32768 * (10 : ℝ) ^ (-(1 : ℝ) / 200))⌋ : ℝ) < 32767 :=
        lt_of_le_of_lt hfle hvlt
      have hz : ⌊(32768 * (10 : ℝ) ^ (-(1 : ℝ) / 200))⌋ < (32767 : ℤ) := by
        exact_mod_cast hlt
      omega
  rw [hx] at hfb
  exact lt_irrefl _ hfb

/-- C10 — Whenever segmentation produces an empty segment sequence,
`process_audio` returns the reportable `noSegments` outcome: it is distinct
from both a completed export and a raised exception, and by construction no
chunk processing, reassembly or export expression is ever evaluated on that
path. -/
theorem claim_C10 : ∀ (audio : AudioSeg) (th : Db),
    calculate_silence_threshold audio (-16) = .ok th →
    split_audio_on_silence audio 200 (dbToAmpFactor th * maxPossibleAmp audio.width) 0
      = [] →
    process_audio audio = .noSegments := by
  intro audio th h1 h2
  simp only [process_audio, h1, h2]

/-- Witness for C10: a 300 ms all-zero buffer has dBFS `-inf`, so the
threshold amplitude is 0, every window is silent, segmentation is empty, and
the pipeline stops at `noSegments`. -/
theorem claim_C10_witness :
    calculate_silence_threshold (AudioSeg.mk 10 1 2 (List.replicate 3 [0])) (-16)
      = .ok Db.negInf ∧
    process_audio (AudioSeg.mk 10 1 2 (List.replicate 3 [0])) = .noSegments := by
  refine ⟨rfl, ?_⟩
  apply claim_C10 (AudioSeg.mk 10 1 2 (List.replicate 3 [0])) Db.negInf rfl
  have hth : dbToAmpFactor Db.negInf
      * maxPossibleAmp (AudioSeg.mk 10 1 2 (List.replicate 3 [0])).width = 0 := by
    rw [dbToAmpFactor]
    exact zero_mul _
  rw [hth]
  show (splitRanges (AudioSeg.mk 10 1 2 (List.replicate 3 [0])) 200 (0 : ℝ) 0).map
      (fun p => sliceMs (AudioSeg.mk 10 1 2 (List.replicate 3 [0])) p.1.toNat p.2.toNat)
    = []
  rw [splitRanges_nil _ 200 (0 : ℝ) 0 (detect_nonsilent_all _ 200 (0 : ℝ) (by decide)
    (fun i _ => by
      rw [sliceRms_zero _ (by decide) i (i + 200)]
      norm_num))]
  rfl

set_option maxRecDepth 400000 in
/-- Witness for C9: two 11025 Hz mono 16-bit chunks concatenate to the
buffer holding both frame lists in order, with the exact duration sum. -/
theorem claim_C9_witness :
    (concatenate_chunks [AudioSeg.mk 11025 1 2 [[1], [2]], AudioSeg.mk 11025 1 2 [[3]]]
        = .ok (AudioSeg.mk 11025 1 2
          (([AudioSeg.mk 11025 1 2 [[1], [2]], AudioSeg.mk 11025 1 2 [[3]]].map
            AudioSeg.frames).flatten)) ∧
      (okOr (concatenate_chunks
          [AudioSeg.mk 11025 1 2 [[1], [2]], AudioSeg.mk 11025 1 2 [[3]]])).frames
        = ([AudioSeg.mk 11025 1 2 [[1], [2]], AudioSeg.mk 11025 1 2 [[3]]].map
            AudioSeg.frames).flatten ∧
      durationMsQ (okOr (concatenate_chunks
          [AudioSeg.mk 11025 1 2 [[1], [2]], AudioSeg.mk 11025 1 2 [[3]]]))
        = ([AudioSeg.mk 11025 1 2 [[1], [2]], AudioSeg.mk 11025 1 2 [[3]]].map
            durationMsQ).sum) ∧
    ([AudioSeg.mk 11025 1 2 [[1], [2]], AudioSeg.mk 11025 1 2 [[3]]].map
        AudioSeg.frames).flatten = [[1], [2], [3]] :=
  ⟨claim_C9.2.2 [AudioSeg.mk 11025 1 2 [[1], [2]], AudioSeg.mk 11025 1 2 [[3]]] 11025 1 2
      (by norm_num) (by norm_num) (by norm_num) (by decide) (by decide),
   by decide⟩

end EchoMp3
